import Mathlib

/-!
Verification of the geointel probe-store and candidate-scoring core.

The definitions below are a shallow embedding of the Python sources:
  - `ProbeStore` (src/app.py, class ProbeStore): an in-memory TTL cache of
    probe activity keyed by client MAC.  The Python dict is modelled as an
    insertion-ordered association list, the Python set of SSIDs as a
    duplicate-free list (`setAdd` inserts only when absent), and every
    method that reads the wall clock takes an explicit `now` argument.
  - the eventbus message handler (src/app.py, `_on_eventbus_message` and
    `_deep_find_first`), modelled over a JSON value type, with Python
    exceptions made explicit through `Except`.
  - the candidate scorer (src/scoring.py, `score_candidates`), modelled
    over the real numbers.
-/

namespace Geointel

/-- Python str.upper, written over the underlying character list so that it
reduces in the kernel.  `Char.toUpper` maps the ASCII letters, which is
exhaustive for the identifiers this store receives (hex MAC addresses). -/
def strUpper (s : String) : String :=
  String.mk (s.data.map Char.toUpper)

/-- Code-point lexicographic comparison on strings (the comparison Python
uses for `sorted`), written structurally so that it reduces in the kernel. -/
def lexLe : List Char → List Char → Bool
  | [], _ => true
  | _ :: _, [] => false
  | a :: as, b :: bs =>
    if a.val < b.val then true
    else if b.val < a.val then false
    else lexLe as bs

/-- One probe record: last event timestamp and the set of probed SSIDs
(modelled as a duplicate-free list, as iteration order never escapes
unsorted). Mirrors the dict `{"ts": int, "ssids": set[str]}` of app.py. -/
structure Rec where
  ts : Int
  ssids : List String
deriving DecidableEq

/-- The probe store state: TTL, per-MAC SSID cap, version counter and the
MAC-indexed table (insertion-ordered, like a Python dict). -/
structure Store where
  ttl : Int
  maxSsids : Nat
  ver : Nat
  byMac : List (String × Rec)
deriving DecidableEq

/-- Fresh store, as built by `ProbeStore.__init__`. -/
def initStore (ttl : Int) (cap : Nat) : Store :=
  { ttl := ttl, maxSsids := cap, ver := 0, byMac := [] }

/-- Dict lookup on the association list (first entry with the key). -/
def lookupMac (l : List (String × Rec)) (m : String) : Option Rec :=
  (l.find? (fun p => p.1 = m)).map (fun p => p.2)

/-- In-place update of every entry with the given key (a Python dict has at
most one). -/
def updEntry (l : List (String × Rec)) (m : String) (f : Rec → Rec) :
    List (String × Rec) :=
  l.map (fun p => if p.1 = m then (p.1, f p.2) else p)

/-- Python set.add: insert only when absent, preserving iteration order. -/
def setAdd (l : List String) (s : String) : List String :=
  if s ∈ l then l else l ++ [s]

/-- The body of `_prune_locked`: drop every record whose timestamp is
strictly below `now - ttl`. -/
def pruneList (ttl : Int) (now : Int) (l : List (String × Rec)) :
    List (String × Rec) :=
  l.filter (fun p => decide (now - ttl ≤ p.2.ts))

/-- `_prune_locked` as a state transformer. -/
def pruneStore (st : Store) (now : Int) : Store :=
  { st with byMac := pruneList st.ttl now st.byMac }

/-- `ProbeStore.record`. `ssid = none` models a missing/non-string SSID
(treated as the wildcard) and `ts = none` a missing/invalid timestamp
(defaults to `now`).  Mirrors app.py lines 87-104: normalize the MAC to
upper case, no-op when empty, create-or-update the record with
`ts := max old new` and a capped set insert, prune, bump the version. -/
def record (st : Store) (mac : String) (ssid : Option String)
    (ts : Option Int) (now : Int) : Store :=
  let macU := strUpper mac
  if macU = "" then st
  else
    let s := ssid.getD ""
    let t := ts.getD now
    let base :=
      if (lookupMac st.byMac macU).isSome then st.byMac
      else st.byMac ++ [(macU, { ts := t, ssids := [] })]
    let updated := updEntry base macU (fun r =>
      { ts := max r.ts t
        ssids := if r.ssids.length < st.maxSsids then setAdd r.ssids s
                 else r.ssids })
    { st with byMac := pruneList st.ttl now updated, ver := st.ver + 1 }

/-- One element of the summary list built by `ProbeStore.items`. -/
structure Item where
  mac : String
  ts : Int
  ssids : List String
  ssid_count : Nat
deriving DecidableEq

/-- Python sorted on strings: the stable ascending sort (insertion sort is
stable, hence extensionally the unique function Python's sorted computes). -/
def sortedStrings (l : List String) : List String :=
  l.insertionSort (fun a b => lexLe a.data b.data = true)

/-- `ProbeStore.items` (the snapshot): prune, render each record with the
display names (non-empty, not ignored, sorted) and the raw set size, then
stable-sort newest first.  Returns the summary list together with the
post-prune store, since pruning mutates the store. -/
def items (st : Store) (ignored : List String) (now : Int) :
    List Item × Store :=
  let st' := pruneStore st now
  let out := st'.byMac.map (fun p =>
    { mac := p.1
      ts := p.2.ts
      ssids := sortedStrings (p.2.ssids.filter
        (fun s => decide (s ≠ "") && !(ignored.contains s)))
      ssid_count := p.2.ssids.length })
  (out.insertionSort (fun a b => b.ts ≤ a.ts), st')

/-- `ProbeStore.get_ssids`: sorted full name set for one MAC, empty when
unknown.  Note that unlike `items` it does NOT prune. -/
def get_ssids (st : Store) (mac : String) : List String :=
  match lookupMac st.byMac (strUpper mac) with
  | none => []
  | some r => sortedStrings r.ssids

/-- `ProbeStore.version`. -/
def version (st : Store) : Nat :=
  st.ver

/-! ## Eventbus message handling (src/app.py `_on_eventbus_message`) -/

/-- Decoded JSON values, as produced by Python's json.loads. -/
inductive J where
  | null
  | bool (v : Bool)
  | num (n : Int)
  | str (s : String)
  | arr (l : List J)
  | obj (l : List (String × J))

/-- Python truthiness of a decoded JSON value. -/
def truthy : J → Bool
  | .null => false
  | .bool v => v
  | .num n => n != 0
  | .str s => s != ""
  | .arr l => !l.isEmpty
  | .obj l => !l.isEmpty

/-- Python dict.get: first entry with the key (a dict has at most one). -/
def lookupJ (kvs : List (String × J)) (k : String) : Option J :=
  (kvs.find? (fun p => p.1 = k)).map (fun p => p.2)

mutual

/-- `_deep_find_first` (app.py lines 150-168): on a dict, first check the
wanted keys in priority order (a hit whose value is JSON null is returned
as Python None, which the callers cannot distinguish from a miss, so it is
modelled as `none`; the search of this subtree stops either way), then
recurse into the values in order; on a list recurse into the elements in
order; scalars never match. -/
def deepFind : J → List String → Option J
  | J.obj kvs, keys =>
    match keys.findSome? (fun k => lookupJ kvs k) with
    | some v => match v with | J.null => none | w => some w
    | none => deepFindVals kvs keys
  | J.arr l, keys => deepFindList l keys
  | _, _ => none

/-- Recursion of `_deep_find_first` over the elements of a JSON list. -/
def deepFindList : List J → List String → Option J
  | [], _ => none
  | v :: rest, keys =>
    match deepFind v keys with
    | some r => some r
    | none => deepFindList rest keys

/-- Recursion of `_deep_find_first` over the values of a JSON dict. -/
def deepFindVals : List (String × J) → List String → Option J
  | [], _ => none
  | (_, v) :: rest, keys =>
    match deepFind v keys with
    | some r => some r
    | none => deepFindVals rest keys

end

/-- The MAC key paths searched by `_on_eventbus_message`. -/
def macKeys : List String :=
  ["kismet.device.base.macaddr",
   "dot11.device/kismet.device.base.macaddr",
   "DOT11_NEW_SSID_BASEDEV/kismet.device.base.macaddr"]

/-- The SSID key paths searched by `_on_eventbus_message`. -/
def ssidKeys : List String :=
  ["dot11.probedssid.ssid",
   "DOT11_PROBED_SSID/dot11.probedssid.ssid",
   "dot11.device.last_probed_ssid_record/dot11.probedssid.ssid"]

/-- The timestamp key paths searched by `_on_eventbus_message`. -/
def tsKeys : List String :=
  ["dot11.probedssid.last_time",
   "DOT11_PROBED_SSID/dot11.probedssid.last_time",
   "kismet.device.base.last_time",
   "kismet.common.timestamp"]

/-- Python `a or b` on decoded values. -/
def jOr (a b : J) : J :=
  if truthy a then a else b

/-- The event name: `js.get("event") or js.get("kismet.eventbus.event")
or ""` (a missing key is Python None, i.e. falsy). -/
def evtOf (kvs : List (String × J)) : J :=
  jOr ((lookupJ kvs "event").getD J.null)
    (jOr ((lookupJ kvs "kismet.eventbus.event").getD J.null) (J.str ""))

/-- The MAC value: deep search followed by Python `or ""`. -/
def macOf (j : J) : J :=
  match deepFind j macKeys with
  | some v => if truthy v then v else J.str ""
  | none => J.str ""

/-- Python str() of a decoded value, as applied to the found MAC.  Composite
values are abbreviated: the handler only ever builds it from a truthy hit,
and every claim instantiates it at string-valued MACs. -/
def strOf : J → String
  | .null => "None"
  | .bool true => "True"
  | .bool false => "False"
  | .num n => toString n
  | .str s => s
  | .arr _ => "[...]"
  | .obj _ => "\x7b...\x7d"

/-- List membership of one character sequence inside another as a plain
structural program: `isPre n h` is "n is an initial segment of h". -/
def isPre : List Char → List Char → Bool
  | [], _ => true
  | _ :: _, [] => false
  | a :: as, b :: bs => a == b && isPre as bs

/-- Containment of a character sequence at any position. -/
def containsSeq (needle : List Char) : List Char → Bool
  | [] => isPre needle []
  | l@(_ :: rest) => isPre needle l || containsSeq needle rest

/-- Python `needle in hay` on strings. -/
def containsSub (needle hay : String) : Bool :=
  containsSeq needle.data hay.data

/-- Python str.isdigit: non-empty and all digits. -/
def allDigits (s : String) : Bool :=
  !s.data.isEmpty && s.data.all (fun c => c.isDigit)

/-- Decimal value of an all-digit character list (Python int of the string). -/
def digitsToNat : List Char → Nat → Nat
  | [], acc => acc
  | c :: cs, acc => digitsToNat cs (acc * 10 + (c.toNat - 48))

/-- The timestamp normalization of `_on_eventbus_message` lines 219-227:
an all-digit string or numeric value becomes an Int (a JSON bool counts,
since Python bool is an int subclass); anything else becomes None. -/
def tsNorm : Option J → Option Int
  | some (J.str s) =>
      if allDigits s then some (Int.ofNat (digitsToNat s.data 0)) else none
  | some (J.num n) => some n
  | some (J.bool v) => some (if v then 1 else 0)
  | _ => none

/-- The (mac, ssid, ts) arguments of the final `PROBES.record` call. -/
structure Call where
  mac : String
  ssid : String
  ts : Option Int
deriving DecidableEq

/-- Build the `PROBES.record` arguments: `str(mac)`, the SSID if the found
value is a string else the wildcard, and the normalized timestamp. -/
def mkCall (macJ : J) (ssidF tsF : Option J) : Call :=
  { mac := strOf macJ
    ssid := match ssidF with | some (J.str s) => s | _ => ""
    ts := tsNorm tsF }

/-- `_on_eventbus_message` after a successful json.loads, with Python
exceptions made explicit: `Except.error ()` is an uncaught exception
(js.get on a non-dict, or .upper() on a truthy non-string event name),
`Except.ok none` a silent discard, `Except.ok (some c)` a forwarded
`PROBES.record` call. -/
def handle : J → Except Unit (Option Call)
  | J.obj kvs =>
    let evt := evtOf kvs
    let macJ := macOf (J.obj kvs)
    let ssidF := deepFind (J.obj kvs) ssidKeys
    let tsF := deepFind (J.obj kvs) tsKeys
    if truthy macJ = false then Except.ok none
    else if truthy evt then
      match evt with
      | J.str e =>
        if containsSub "PROBED_SSID" (strUpper e) = false && ssidF.isNone then
          Except.ok none
        else Except.ok (some (mkCall macJ ssidF tsF))
      | _ => Except.error ()
    else Except.ok (some (mkCall macJ ssidF tsF))
  | _ => Except.error ()

/-- Effect of one inbound eventbus frame on the probe store: `none` models
a frame json.loads rejects (the handler returns silently); otherwise the
handler runs, and only a forwarded call mutates the store. -/
def applyMsg (decoded : Option J) (st : Store) (now : Int) : Store :=
  match decoded with
  | none => st
  | some j =>
    match handle j with
    | Except.ok (some c) => record st c.mac (some c.ssid) c.ts now
    | _ => st

/-! ## Candidate scoring (src/scoring.py and utils.haversine_km)

Python floats are modelled by the real numbers; `**` on them by `Real.rpow`
(the bases occurring here are positive). -/

/-- One raw geolocated hit as assembled by the /api/candidates route:
latitude, longitude, the SSID it was found under, and the pass-through
last-update marker. -/
structure Cand where
  lat : ℝ
  lon : ℝ
  ssid : String
  lastupdt : Option String

/-- One scored candidate: the four input fields plus the score. -/
structure Scored where
  lat : ℝ
  lon : ℝ
  ssid : String
  lastupdt : Option String
  score : ℝ

/-- The scoring part of the configuration, after the defaulting `.get`
calls at the top of `score_candidates`. -/
structure ScoringCfg where
  alpha : ℝ
  sigma : ℝ
  r_m : ℝ
  w_rar : ℝ
  w_prox : ℝ

/-- math.radians. -/
noncomputable def radians (x : ℝ) : ℝ :=
  x * Real.pi / 180

/-- math.atan2, written out by quadrant.  `haversine_km` only ever calls it
on non-negative arguments, where it agrees with `Real.arctan` of the
quotient away from `x = 0`. -/
noncomputable def atan2 (y x : ℝ) : ℝ :=
  if 0 < x then Real.arctan (y / x)
  else if x < 0 then
    if 0 ≤ y then Real.arctan (y / x) + Real.pi
    else Real.arctan (y / x) - Real.pi
  else
    if 0 < y then Real.pi / 2
    else if y < 0 then -(Real.pi / 2)
    else 0

/-- utils.haversine_km: great-circle distance in kilometers with the fixed
Earth radius 6371.0088 km. -/
noncomputable def haversine_km (lat1 lon1 lat2 lon2 : ℝ) : ℝ :=
  let R : ℝ := 6371.0088
  let dlat := radians (lat2 - lat1)
  let dlon := radians (lon2 - lon1)
  let a := Real.sin (dlat / 2) ^ 2 +
    Real.cos (radians lat1) * Real.cos (radians lat2) * Real.sin (dlon / 2) ^ 2
  let c := 2 * atan2 (Real.sqrt a) (Real.sqrt (1 - a))
  R * c

/-- The by_ssid grouping of `score_candidates`: the candidates carrying the
given SSID, in encounter order. -/
def bySsid (candidates : List Cand) (s : String) : List Cand :=
  candidates.filter (fun c => c.ssid = s)

/-- rarity_w of `score_candidates`: `(1 / log(2 + max(1, n)))^w_rar`, with
a missing rarity count defaulting to 1. -/
noncomputable def rarity_w (hits_count : String → Option Nat) (w_rar : ℝ)
    (s : String) : ℝ :=
  let n : Nat := max 1 ((hits_count s).getD 1)
  (1 / Real.log (2 + (n : ℝ))) ^ w_rar

/-- prox_w of `score_candidates`: 1 when no base point is configured, else
`exp(-d_km / max(0.1, sigma)) ^ w_prox`. -/
noncomputable def prox_w (base : Option (ℝ × ℝ)) (sigma w_prox : ℝ)
    (lat lon : ℝ) : ℝ :=
  match base with
  | none => 1
  | some b => Real.exp (-haversine_km lat lon b.1 b.2 / max 0.1 sigma) ^ w_prox

open Classical in
/-- coprobe of `score_candidates` (scoring.py lines 25-33): count the
device SSIDs other than the candidate's own that have at least one hit
within `r_m` meters (the inner loop breaks at the first such hit, i.e.
each name is counted once), divided by `max(1, len(device_ssids) - 1)`.
Natural subtraction agrees with Python here because `max 1` absorbs the
one negative case (the empty list). -/
noncomputable def coprobe (candidates : List Cand) (device_ssids : List String)
    (r_m lat lon : ℝ) (selfSsid : String) : ℝ :=
  let cnt := device_ssids.countP (fun s =>
    decide (s ≠ selfSsid) &&
    decide (∃ c ∈ bySsid candidates s,
      haversine_km lat lon c.lat c.lon * 1000 ≤ r_m))
  (cnt : ℝ) / ((max 1 (device_ssids.length - 1) : ℕ) : ℝ)

/-- The score expression of `score_candidates` line 38 for one candidate:
`p * (alpha * cp + (1 - alpha)) * r`. -/
noncomputable def scoreOf (cfg : ScoringCfg) (candidates : List Cand)
    (device_ssids : List String) (hits_count : String → Option Nat)
    (base : Option (ℝ × ℝ)) (c : Cand) : ℝ :=
  prox_w base cfg.sigma cfg.w_prox c.lat c.lon *
    (cfg.alpha * coprobe candidates device_ssids cfg.r_m c.lat c.lon c.ssid +
      (1 - cfg.alpha)) *
    rarity_w hits_count cfg.w_rar c.ssid

/-- scoring.score_candidates: copy each candidate, extend it with its
score, and stable-sort descending by score (Python's sorted with
reverse=True is the stable descending sort, which insertion sort over
the relation b.score ≤ a.score computes). -/
noncomputable def score_candidates (cfg : ScoringCfg) (candidates : List Cand)
    (device_ssids : List String) (hits_count : String → Option Nat)
    (base : Option (ℝ × ℝ)) : List Scored :=
  let out := candidates.map (fun c =>
    { lat := c.lat, lon := c.lon, ssid := c.ssid, lastupdt := c.lastupdt
      score := scoreOf cfg candidates device_ssids hits_count base c })
  out.insertionSort (fun a b => b.score ≤ a.score)

/-- A whole sequence of `record` calls for one identifier, oldest first,
all at the same wall-clock instant. -/
def recordSeq (st : Store) (mac : String) (calls : List (String × Int))
    (now : Int) : Store :=
  calls.foldl (fun acc c => record acc mac (some c.1) (some c.2) now) st



/-- Claim C9: after recording CoffeeShop at t=1000 and then the wildcard
name at t=1050 for MAC AA:BB:CC:DD:EE:FF, the snapshot holds exactly one
record with last_seen 1050, display names [CoffeeShop] (the wildcard is
filtered out of the display list) and a name count of 2 (the wildcard is
counted). -/
theorem wildcard_scenario :
    (items (record (record (initStore 86400 200) "AA:BB:CC:DD:EE:FF"
        (some "CoffeeShop") (some 1000) 1000) "AA:BB:CC:DD:EE:FF"
        (some "") (some 1050) 1050) [] 1050).1 =
      [{ mac := "AA:BB:CC:DD:EE:FF", ts := 1050,
         ssids := ["CoffeeShop"], ssid_count := 2 }] := by
  decide

/-- Claim C2 counterexample: a record written at time 0 in a store with
ttl 10 is stale at now = 100 (its last_seen 0 is below 100 - 10), and the
snapshot no longer returns it, yet names_for still returns its name:
get_ssids does not prune, so a stale record stays visible to it until a
mutation or a snapshot removes it. -/
theorem get_ssids_stale_cex :
    ((0 : Int) < 100 - 10 ∧
      get_ssids (record (initStore 10 200) "AA" (some "x") (some 0) 0) "AA"
        = ["x"]) ∧
    (items (record (initStore 10 200) "AA" (some "x") (some 0) 0) [] 100).1
      = [] := by
  exact ⟨⟨by decide, by decide⟩, by decide⟩

/-- Claim C2 (amended): a stored record is visible to the snapshot exactly
while now - ttl has not exceeded its last_seen - it becomes invisible to
items strictly after that and never before; names_for, which does not
prune, keeps answering from the raw table regardless of staleness. -/
theorem snapshot_ttl_visibility (st : Store) (ignored : List String)
    (now : Int) (mac : String) :
    ((∃ it ∈ (items st ignored now).1, it.mac = mac) ↔
      ∃ r, (mac, r) ∈ st.byMac ∧ now - st.ttl ≤ r.ts) ∧
    (∀ r, lookupMac st.byMac (strUpper mac) = some r →
      get_ssids st mac = sortedStrings r.ssids) := by
  constructor
  · simp only [items, pruneStore, pruneList]
    constructor
    · rintro ⟨it, hmem, hmac⟩
      rw [List.mem_insertionSort] at hmem
      obtain ⟨p, hp, rfl⟩ := List.mem_map.mp hmem
      rw [List.mem_filter] at hp
      refine ⟨p.2, ?_, ?_⟩
      · simpa [← hmac] using hp.1
      · simpa using hp.2
    · rintro ⟨r, hmem, hts⟩
      refine ⟨_, (List.mem_insertionSort _).mpr
        (List.mem_map.mpr ⟨(mac, r), List.mem_filter.mpr ⟨hmem, by simp only [decide_eq_true_eq]; exact hts⟩, rfl⟩), rfl⟩
  · intro r hr
    simp [get_ssids, hr]

/-- Claim C5: the version counter increases by exactly one on every
successful record call (non-empty identifier after normalization), a
record call whose identifier normalizes to the empty string is a complete
no-op, and the read-only operations leave the version unchanged (items
prunes but never bumps the version; version itself only reads). -/
theorem version_semantics (st : Store) (mac : String) (ssid : Option String)
    (ts : Option Int) (now : Int) (ignored : List String) :
    (strUpper mac ≠ "" → (record st mac ssid ts now).ver = st.ver + 1) ∧
    (strUpper mac = "" → record st mac ssid ts now = st) ∧
    (items st ignored now).2.ver = st.ver ∧
    version st = st.ver := by
  refine ⟨fun h => ?_, fun h => ?_, rfl, rfl⟩
  · simp [record, h]
  · simp [record, h]

theorem version_semantics_witness :
    (record (initStore 10 5) "AA" none none 0).ver = (initStore 10 5).ver + 1 ∧
    record (initStore 10 5) "" none none 0 = initStore 10 5 :=
  ⟨(version_semantics (initStore 10 5) "AA" none none 0 []).1 (by decide),
   (version_semantics (initStore 10 5) "" none none 0 []).2.1 (by decide)⟩

-- C3 machinery
theorem foldl_max_cases (l : List Int) :
    ∀ a : Int, l.foldl max a = a ∨ l.foldl max a ∈ l := by
  induction l with
  | nil => intro a; exact Or.inl rfl
  | cons b t ih =>
    intro a
    rcases ih (max a b) with h | h
    · rcases max_choice a b with hm | hm
      · refine Or.inl ?_
        rw [List.foldl_cons, h, hm]
      · refine Or.inr ?_
        rw [List.foldl_cons, h, hm]
        exact List.mem_cons_self b t
    · exact Or.inr (List.mem_cons_of_mem b h)

theorem le_foldl_max (l : List Int) : ∀ a : Int, a ≤ l.foldl max a := by
  induction l with
  | nil => intro a; exact le_refl a
  | cons b t ih => intro a; exact le_trans (le_max_left a b) (ih (max a b))

theorem mem_le_foldl_max (l : List Int) :
    ∀ a : Int, ∀ x ∈ l, x ≤ l.foldl max a := by
  induction l with
  | nil => intro a x hx; cases hx
  | cons b t ih =>
    intro a x hx
    rcases List.mem_cons.mp hx with rfl | hx
    · exact le_trans (le_max_right a x) (le_foldl_max t (max a x))
    · exact ih (max a b) x hx

theorem record_preserves_params (st : Store) (mac : String) (s : Option String)
    (t : Option Int) (now : Int) :
    (record st mac s t now).ttl = st.ttl ∧
    (record st mac s t now).maxSsids = st.maxSsids := by
  constructor <;> (simp only [record]; split <;> rfl)

/-- Effect of record on a store holding exactly the target record. -/
theorem record_single_step (st : Store) (mac : String) (s : Option String)
    (t now : Int) (r : Rec)
    (hm : strUpper mac ≠ "")
    (hb : st.byMac = [(strUpper mac, r)])
    (hsur : now - st.ttl ≤ max r.ts t) :
    (record st mac s (some t) now).byMac =
      [(strUpper mac,
        { ts := max r.ts t
          ssids := if r.ssids.length < st.maxSsids then setAdd r.ssids (s.getD "")
                   else r.ssids })] := by
  simp [record, hm, hb, lookupMac, updEntry, pruneList, hsur]
  exact sub_le_iff_le_add.mp hsur

/-- Effect of the first record call on an empty store. -/
theorem record_first_step (st : Store) (mac : String) (s : Option String)
    (t now : Int)
    (hm : strUpper mac ≠ "")
    (hb : st.byMac = [])
    (hsur : now - st.ttl ≤ t) :
    (record st mac s (some t) now).byMac =
      [(strUpper mac,
        { ts := t
          ssids := if 0 < st.maxSsids then setAdd [] (s.getD "") else [] })] := by
  simp [record, hm, hb, lookupMac, updEntry, pruneList, hsur]
  exact sub_le_iff_le_add.mp hsur

/-- Running a sequence of same-MAC calls on a store holding exactly the
target record keeps the store a one-record store and folds max over the
timestamps. -/
theorem recordSeq_single (mac : String) (now : Int) (hm : strUpper mac ≠ "") :
    ∀ (calls : List (String × Int)) (st : Store) (r : Rec),
      st.byMac = [(strUpper mac, r)] →
      now - st.ttl ≤ r.ts →
      (∀ p ∈ calls, now - st.ttl ≤ p.2) →
      ∃ r' : Rec,
        (recordSeq st mac calls now).byMac = [(strUpper mac, r')] ∧
        r'.ts = (calls.map Prod.snd).foldl max r.ts ∧
        (recordSeq st mac calls now).ttl = st.ttl := by
  intro calls
  induction calls with
  | nil =>
    intro st r hb hr _
    exact ⟨r, hb, rfl, rfl⟩
  | cons c rest ih =>
    intro st r hb hr hall
    have hc : now - st.ttl ≤ c.2 := hall c (List.mem_cons_self c rest)
    have hsur : now - st.ttl ≤ max r.ts c.2 := le_trans hr (le_max_left _ _)
    have hstep := record_single_step st mac (some c.1) c.2 now r hm hb hsur
    set st1 := record st mac (some c.1) (some c.2) now with hst1
    have hp := record_preserves_params st mac (some c.1) (some c.2) now
    have hb1 : st1.byMac = [(strUpper mac,
        { ts := max r.ts c.2
          ssids := if r.ssids.length < st.maxSsids then setAdd r.ssids c.1
                   else r.ssids })] := hstep
    have hr1 : now - st1.ttl ≤ max r.ts c.2 := by rw [hp.1]; exact hsur
    have hall1 : ∀ p ∈ rest, now - st1.ttl ≤ p.2 := by
      intro p hpmem
      rw [hp.1]
      exact hall p (List.mem_cons_of_mem c hpmem)
    obtain ⟨r', h1, h2, h3⟩ := ih st1 _ hb1 hr1 hall1
    have hfold : recordSeq st mac (c :: rest) now = recordSeq st1 mac rest now :=
      rfl
    rw [hfold]
    refine ⟨r', h1, ?_, by rw [h3]; exact hp.1⟩
    simpa using h2

/-- Assoc-list lookup returns a member. -/
theorem lookupMac_mem {l : List (String × Rec)} {m : String} {r : Rec}
    (h : lookupMac l m = some r) : (m, r) ∈ l := by
  unfold lookupMac at h
  cases hf : l.find? (fun p => p.1 = m) with
  | none => rw [hf] at h; cases h
  | some p =>
    rw [hf] at h
    have hp := List.find?_some hf
    have hmem := List.mem_of_find?_eq_some hf
    have : p.1 = m := by simpa using hp
    cases h
    cases p
    simp_all

/-- On a one-record assoc list, lookup of the key succeeds. -/
theorem lookupMac_single (m : String) (r : Rec) :
    lookupMac [(m, r)] m = some r := by
  simp [lookupMac]

theorem nodup_keys_mem_unique : ∀ {l : List (String × Rec)},
    (l.map Prod.fst).Nodup →
    ∀ {m : String} {r r' : Rec}, (m, r) ∈ l → (m, r') ∈ l → r = r' := by
  intro l
  induction l with
  | nil => intro _ m r r' h; cases h
  | cons p t ih =>
    intro hnd m r r' h1 h2
    rw [List.map_cons, List.nodup_cons] at hnd
    rcases List.mem_cons.mp h1 with h1h | h1t
    · rcases List.mem_cons.mp h2 with h2h | h2t
      · have he : (m, r) = (m, r') := h1h.trans h2h.symm
        exact (Prod.ext_iff.mp he).2
      · exfalso
        apply hnd.1
        have : p.1 = m := by rw [← h1h]
        rw [this]
        exact List.mem_map_of_mem Prod.fst h2t
    · rcases List.mem_cons.mp h2 with h2h | h2t
      · exfalso
        apply hnd.1
        have : p.1 = m := by rw [← h2h]
        rw [this]
        exact List.mem_map_of_mem Prod.fst h1t
      · exact ih hnd.2 h1t h2t

/-- Monotone step: an update never decreases the stored timestamp. -/
theorem record_ts_mono (st : Store) (mac : String) (s : Option String)
    (t' : Option Int) (now' : Int) (r r' : Rec)
    (hm : strUpper mac ≠ "")
    (hnd : (st.byMac.map Prod.fst).Nodup)
    (hl : lookupMac st.byMac (strUpper mac) = some r)
    (hl' : lookupMac (record st mac s t' now').byMac (strUpper mac) = some r') :
    r.ts ≤ r'.ts := by
  have hmem := lookupMac_mem hl
  have hmem' := lookupMac_mem hl'
  simp only [record, if_neg hm, hl, Option.isSome_some, if_pos] at hmem'
  have hmem'' := List.mem_of_mem_filter hmem'
  obtain ⟨p, hp, heq⟩ := List.mem_map.mp hmem''
  by_cases hpk : p.1 = strUpper mac
  · rw [if_pos hpk] at heq
    have hr' : r' = { ts := max p.2.ts (t'.getD now')
                      ssids := if p.2.ssids.length < st.maxSsids
                               then setAdd p.2.ssids (s.getD "") else p.2.ssids } := by
      have := (Prod.ext_iff.mp heq).2
      exact this.symm
    have hpmem : (strUpper mac, p.2) ∈ st.byMac := by
      have : p = (strUpper mac, p.2) := by
        cases p; simp_all
      rw [← this]
      exact hp
    have : p.2 = r := nodup_keys_mem_unique hnd hpmem hmem
    rw [hr', this]
    exact le_max_left _ _
  · rw [if_neg hpk] at heq
    exact absurd ((Prod.ext_iff.mp heq).1) hpk

/-- Final state of a nonempty same-MAC call sequence from a fresh store. -/
theorem recordSeq_from_init (mac : String) (ttl : Int) (cap : Nat)
    (now : Int) (hm : strUpper mac ≠ "") (c : String × Int)
    (rest : List (String × Int))
    (hts : ∀ p ∈ c :: rest, now - ttl ≤ p.2) :
    ∃ r : Rec,
      (recordSeq (initStore ttl cap) mac (c :: rest) now).byMac =
        [(strUpper mac, r)] ∧
      r.ts = (rest.map Prod.snd).foldl max c.2 := by
  have hc : now - ttl ≤ c.2 := hts c (List.mem_cons_self c rest)
  have hstep := record_first_step (initStore ttl cap) mac (some c.1) c.2 now hm
    rfl hc
  set st1 := record (initStore ttl cap) mac (some c.1) (some c.2) now with hst1
  have hp := record_preserves_params (initStore ttl cap) mac (some c.1)
    (some c.2) now
  have hr1 : now - st1.ttl ≤
      (Rec.mk c.2 (if 0 < (initStore ttl cap).maxSsids
        then setAdd [] ((some c.1).getD "") else [])).ts := by
    rw [hp.1]; exact hc
  have hall1 : ∀ p ∈ rest, now - st1.ttl ≤ p.2 := by
    intro p hpmem
    rw [hp.1]
    exact hts p (List.mem_cons_of_mem c hpmem)
  obtain ⟨r', h1, h2, _⟩ := recordSeq_single mac now hm rest st1 _ hstep hr1 hall1
  have hfold : recordSeq (initStore ttl cap) mac (c :: rest) now =
      recordSeq st1 mac rest now := rfl
  exact ⟨r', by rw [hfold]; exact h1, by simpa using h2⟩

/-- Claim C3: for any non-empty sequence of record calls for one
identifier whose timestamps are within the TTL window of the (fixed)
wall clock, the final last_seen is the maximum timestamp of the sequence;
any permutation of the calls produces the same final last_seen; and a
single record call never decreases a stored last_seen (it stores
max(old, new)). -/
theorem record_last_seen_max (mac : String) (ttl : Int) (cap : Nat)
    (calls calls2 : List (String × Int)) (now : Int)
    (hm : strUpper mac ≠ "") (hne : calls ≠ [])
    (hts : ∀ p ∈ calls, now - ttl ≤ p.2)
    (hperm : calls2.Perm calls) :
    (∃ r : Rec,
      lookupMac (recordSeq (initStore ttl cap) mac calls now).byMac
        (strUpper mac) = some r ∧
      r.ts ∈ calls.map Prod.snd ∧ ∀ x ∈ calls.map Prod.snd, x ≤ r.ts) ∧
    (∀ r r2 : Rec,
      lookupMac (recordSeq (initStore ttl cap) mac calls now).byMac
        (strUpper mac) = some r →
      lookupMac (recordSeq (initStore ttl cap) mac calls2 now).byMac
        (strUpper mac) = some r2 →
      r2.ts = r.ts) ∧
    (∀ (st : Store) (s : Option String) (t' : Option Int) (now' : Int)
        (r r' : Rec),
      (st.byMac.map Prod.fst).Nodup →
      lookupMac st.byMac (strUpper mac) = some r →
      lookupMac (record st mac s t' now').byMac (strUpper mac) = some r' →
      r.ts ≤ r'.ts) := by
  obtain ⟨c, rest, rfl⟩ : ∃ c rest, calls = c :: rest := by
    cases calls with
    | nil => exact absurd rfl hne
    | cons c rest => exact ⟨c, rest, rfl⟩
  obtain ⟨r0, hb0, hts0⟩ := recordSeq_from_init mac ttl cap now hm c rest hts
  have hmax : r0.ts ∈ (c :: rest).map Prod.snd ∧
      ∀ x ∈ (c :: rest).map Prod.snd, x ≤ r0.ts := by
    constructor
    · rcases foldl_max_cases (rest.map Prod.snd) c.2 with h | h
      · rw [hts0, h]; exact List.mem_cons_self _ _
      · rw [hts0]; exact List.mem_cons_of_mem _ h
    · intro x hx
      rcases List.mem_cons.mp hx with rfl | hx
      · rw [hts0]; exact le_foldl_max _ _
      · rw [hts0]; exact mem_le_foldl_max _ _ _ hx
  refine ⟨⟨r0, by rw [hb0]; exact lookupMac_single _ _, hmax⟩, ?_, ?_⟩
  · intro r r2 hr hr2
    have hr0 : r = r0 := by
      rw [hb0, lookupMac_single] at hr
      exact (Option.some.injEq _ _ ▸ hr).symm
    obtain ⟨c2, rest2, h2eq⟩ : ∃ c2 rest2, calls2 = c2 :: rest2 := by
      cases h : calls2 with
      | nil => rw [h] at hperm; exact absurd hperm.symm.eq_nil (by simp)
      | cons c2 rest2 => exact ⟨c2, rest2, rfl⟩
    have hts2 : ∀ p ∈ calls2, now - ttl ≤ p.2 := fun p hp =>
      hts p (hperm.mem_iff.mp hp)
    rw [h2eq] at hts2
    obtain ⟨r0', hb0', hts0'⟩ :=
      recordSeq_from_init mac ttl cap now hm c2 rest2 hts2
    have hr20 : r2 = r0' := by
      rw [h2eq, hb0', lookupMac_single] at hr2
      exact (Option.some.injEq _ _ ▸ hr2).symm
    have hmax2 : r0'.ts ∈ (c2 :: rest2).map Prod.snd ∧
        ∀ x ∈ (c2 :: rest2).map Prod.snd, x ≤ r0'.ts := by
      constructor
      · rcases foldl_max_cases (rest2.map Prod.snd) c2.2 with h | h
        · rw [hts0', h]; exact List.mem_cons_self _ _
        · rw [hts0']; exact List.mem_cons_of_mem _ h
      · intro x hx
        rcases List.mem_cons.mp hx with rfl | hx
        · rw [hts0']; exact le_foldl_max _ _
        · rw [hts0']; exact mem_le_foldl_max _ _ _ hx
    have hmapperm : (calls2.map Prod.snd).Perm ((c :: rest).map Prod.snd) :=
      hperm.map Prod.snd
    have h1 : r0'.ts ≤ r0.ts := by
      apply hmax.2
      apply hmapperm.mem_iff.mp
      rw [h2eq]
      exact hmax2.1
    have h2 : r0.ts ≤ r0'.ts := by
      apply hmax2.2
      rw [← h2eq]
      apply hmapperm.mem_iff.mpr
      exact hmax.1
    rw [hr0, hr20]
    exact le_antisymm h1 h2
  · intro st s t' now' r r' hnd hl hl'
    exact record_ts_mono st mac s t' now' r r' hm hnd hl hl'

theorem setAdd_length_le (l : List String) (s : String) :
    (setAdd l s).length ≤ l.length + 1 := by
  unfold setAdd
  split
  · exact Nat.le_succ _
  · simp

theorem lookupMac_isSome_of_mem {l : List (String × Rec)} {m : String}
    {r : Rec} (h : (m, r) ∈ l) : (lookupMac l m).isSome := by
  unfold lookupMac
  obtain ⟨p, hf⟩ : ∃ p, l.find? (fun p => p.1 = m) = some p := by
    have h2 : (l.find? (fun p => p.1 = m)).isSome :=
      List.find?_isSome.mpr ⟨(m, r), h, by simp⟩
    exact Option.isSome_iff_exists.mp h2
  rw [hf]
  rfl

/-- Claim C4: if every stored name set respects the per-identifier cap,
it still does after any record call (a name is only added while the set
is strictly below the cap), and a record already at the cap keeps exactly
its stored names - the newly arriving name is dropped. -/
theorem record_ssid_cap (st : Store) (mac : String) (ssid : Option String)
    (ts : Option Int) (now : Int)
    (hcap : ∀ m r, (m, r) ∈ st.byMac → r.ssids.length ≤ st.maxSsids) :
    (∀ m r', (m, r') ∈ (record st mac ssid ts now).byMac →
      r'.ssids.length ≤ st.maxSsids) ∧
    (∀ r r', (st.byMac.map Prod.fst).Nodup →
      (strUpper mac, r) ∈ st.byMac → r.ssids.length = st.maxSsids →
      (strUpper mac, r') ∈ (record st mac ssid ts now).byMac →
      r'.ssids = r.ssids) := by
  constructor
  · intro m r' hmem
    by_cases hm : strUpper mac = ""
    · rw [record, if_pos hm] at hmem
      exact hcap m r' hmem
    · simp only [record, if_neg hm] at hmem
      have hmem2 := List.mem_of_mem_filter hmem
      obtain ⟨p, hp, heq⟩ := List.mem_map.mp hmem2
      have hbase : p ∈ st.byMac ∨
          p = (strUpper mac, { ts := ts.getD now, ssids := [] }) := by
        by_cases hsome : (lookupMac st.byMac (strUpper mac)).isSome
        · rw [if_pos hsome] at hp
          exact Or.inl hp
        · rw [if_neg hsome] at hp
          rcases List.mem_append.mp hp with h | h
          · exact Or.inl h
          · exact Or.inr (by simpa using h)
      by_cases hpk : p.1 = strUpper mac
      · rw [if_pos hpk] at heq
        have hr' : r' = { ts := max p.2.ts (ts.getD now)
                          ssids := if p.2.ssids.length < st.maxSsids
                                   then setAdd p.2.ssids (ssid.getD "")
                                   else p.2.ssids } := ((Prod.ext_iff.mp heq).2).symm
        rw [hr']
        by_cases hlen : p.2.ssids.length < st.maxSsids
        · simp only [if_pos hlen]
          calc (setAdd p.2.ssids (ssid.getD "")).length
              ≤ p.2.ssids.length + 1 := setAdd_length_le _ _
            _ ≤ st.maxSsids := hlen
        · simp only [if_neg hlen]
          rcases hbase with h | h
          · exact hcap p.1 p.2 (by cases p; exact h)
          · rw [h]
            simp
      · rw [if_neg hpk] at heq
        rcases hbase with h | h
        · have h2 : p.2 = r' := by rw [heq]
          rw [← h2]
          exact hcap p.1 p.2 (by cases p; exact h)
        · exfalso
          apply hpk
          rw [h]
  · intro r r' hnd hmem hlen hmem'
    by_cases hm : strUpper mac = ""
    · rw [record, if_pos hm] at hmem'
      rw [nodup_keys_mem_unique hnd hmem' hmem]
    · have hsome := lookupMac_isSome_of_mem hmem
      simp only [record, if_neg hm, if_pos hsome] at hmem'
      have hmem2 := List.mem_of_mem_filter hmem'
      obtain ⟨p, hp, heq⟩ := List.mem_map.mp hmem2
      by_cases hpk : p.1 = strUpper mac
      · rw [if_pos hpk, Prod.mk.injEq] at heq
        have hr' : r' = { ts := max p.2.ts (ts.getD now)
                          ssids := if p.2.ssids.length < st.maxSsids
                                   then setAdd p.2.ssids (ssid.getD "")
                                   else p.2.ssids } := heq.2.symm
        have hpmem : (strUpper mac, p.2) ∈ st.byMac := by
          rw [← hpk]
          exact hp
        have hpr : p.2 = r := nodup_keys_mem_unique hnd hpmem hmem
        rw [hr', hpr, hlen]
        exact if_neg (lt_irrefl _)
      · rw [if_neg hpk, Prod.mk.injEq] at heq
        exact absurd heq.1 hpk

theorem snapshot_ttl_visibility_witness :
    get_ssids (record (initStore 10 200) "BB" (some "net") (some 7) 7) "BB" =
      sortedStrings (Rec.mk 7 ["net"]).ssids :=
  (snapshot_ttl_visibility (record (initStore 10 200) "BB" (some "net")
    (some 7) 7) [] 7 "BB").2 (Rec.mk 7 ["net"]) (by decide)

theorem record_last_seen_max_witness :
    ∃ r : Rec,
      lookupMac (recordSeq (initStore 100 5) "AA" [("x", 10), ("y", 50)]
        0).byMac (strUpper "AA") = some r ∧
      r.ts ∈ [("x", 10), ("y", 50)].map Prod.snd ∧
      ∀ x ∈ [("x", 10), ("y", 50)].map Prod.snd, x ≤ r.ts :=
  (record_last_seen_max "AA" 100 5 [("x", 10), ("y", 50)]
    [("y", 50), ("x", 10)] 0 (by decide) (by decide) (by decide)
    (by decide)).1

theorem record_ssid_cap_witness :
    (Rec.mk 5 ["x"]).ssids.length ≤
      (record (initStore 100 1) "AA" (some "x") (some 0) 0).maxSsids :=
  (record_ssid_cap (record (initStore 100 1) "AA" (some "x") (some 0) 0)
    "AA" (some "y") (some 5) 5 (by
      intro m r h
      have hb : (record (initStore 100 1) "AA" (some "x") (some 0) 0).byMac
          = [("AA", { ts := 0, ssids := ["x"] })] := by decide
      rw [hb] at h
      have h2 := List.mem_singleton.mp h
      rw [Prod.mk.injEq] at h2
      rw [h2.2]
      decide)).1 "AA" (Rec.mk 5 ["x"]) (by decide)

/-- Claim C10: score_candidates returns a permutation of fresh copies of
the input candidates, each extended with its score and with every other
field preserved unchanged; the inputs themselves are untouched (the
embedding is a pure function of its arguments, as is the Python code,
which copies each candidate dict before adding the score key). -/
theorem score_candidates_fresh_copies (cfg : ScoringCfg)
    (candidates : List Cand) (device_ssids : List String)
    (hits_count : String → Option Nat) (base : Option (ℝ × ℝ)) :
    (score_candidates cfg candidates device_ssids hits_count base).Perm
      (candidates.map (fun c =>
        { lat := c.lat, lon := c.lon, ssid := c.ssid, lastupdt := c.lastupdt
          score := scoreOf cfg candidates device_ssids hits_count base c })) ∧
    ∀ d ∈ score_candidates cfg candidates device_ssids hits_count base,
      ∃ c ∈ candidates, d.lat = c.lat ∧ d.lon = c.lon ∧ d.ssid = c.ssid ∧
        d.lastupdt = c.lastupdt ∧
        d.score = scoreOf cfg candidates device_ssids hits_count base c := by
  constructor
  · exact List.perm_insertionSort _ _
  · intro d hd
    unfold score_candidates at hd
    rw [List.mem_insertionSort] at hd
    obtain ⟨c, hc, rfl⟩ := List.mem_map.mp hd
    exact ⟨c, hc, rfl, rfl, rfl, rfl, rfl⟩

theorem coprobe_self_single (candidates : List Cand) (r_m lat lon : ℝ)
    (s : String) :
    coprobe candidates [s] r_m lat lon s = 0 := by
  unfold coprobe
  simp

/-- Claim C1: with exactly one candidate whose name has rarity count 1,
no reference point and a single-name device probing exactly that name,
the returned list is that one candidate scored
(1 / log(2 + 1)) ^ w_rarity * (1 - alpha): the proximity factor is 1 and
the coprobe term 0; and in general every returned candidate's score is
proximity * (alpha * coprobe + (1 - alpha)) * rarity of its own fields. -/
theorem score_single_candidate (cfg : ScoringCfg) (c : Cand)
    (hits_count : String → Option Nat) (h1 : hits_count c.ssid = some 1) :
    score_candidates cfg [c] [c.ssid] hits_count none =
      [{ lat := c.lat, lon := c.lon, ssid := c.ssid, lastupdt := c.lastupdt
         score := (1 / Real.log (2 + 1)) ^ cfg.w_rar * (1 - cfg.alpha) }] ∧
    ∀ (cfg2 : ScoringCfg) (cands : List Cand) (device : List String)
      (hits2 : String → Option Nat) (base : Option (ℝ × ℝ)),
      ∀ d ∈ score_candidates cfg2 cands device hits2 base,
        d.score = prox_w base cfg2.sigma cfg2.w_prox d.lat d.lon *
          (cfg2.alpha * coprobe cands device cfg2.r_m d.lat d.lon d.ssid +
            (1 - cfg2.alpha)) *
          rarity_w hits2 cfg2.w_rar d.ssid := by
  constructor
  · unfold score_candidates
    have hsort : ∀ (x : Scored),
        List.insertionSort (fun a b => b.score ≤ a.score) [x] = [x] := by
      intro x
      rfl
    rw [List.map_singleton, hsort]
    have hscore : scoreOf cfg [c] [c.ssid] hits_count none c =
        (1 / Real.log (2 + 1)) ^ cfg.w_rar * (1 - cfg.alpha) := by
      unfold scoreOf
      rw [coprobe_self_single]
      have hprox : prox_w none cfg.sigma cfg.w_prox c.lat c.lon = 1 := rfl
      have hrar : rarity_w hits_count cfg.w_rar c.ssid =
          (1 / Real.log (2 + 1)) ^ cfg.w_rar := by
        unfold rarity_w
        rw [h1]
        norm_num
      rw [hprox, hrar]
      ring
    rw [hscore]
  · intro cfg2 cands device hits2 base d hd
    unfold score_candidates at hd
    rw [List.mem_insertionSort] at hd
    obtain ⟨c2, _, rfl⟩ := List.mem_map.mp hd
    rfl

theorem length_filter_ne (l : List String) (a : String)
    (h : a ∈ l) (hnd : l.Nodup) :
    (l.filter (fun s => s ≠ a)).length = l.length - 1 := by
  induction l with
  | nil => cases h
  | cons b t ih =>
    rw [List.nodup_cons] at hnd
    rcases List.mem_cons.mp h with rfl | hat
    · have hfe : t.filter (fun s => s ≠ a) = t := by
        rw [List.filter_eq_self]
        intro x hx
        exact decide_eq_true (show x ≠ a from fun hxa => hnd.1 (hxa ▸ hx))
      rw [List.filter_cons, if_neg (by simp), hfe, List.length_cons]
      simp
    · have hba : b ≠ a := fun hba => hnd.1 (hba ▸ hat)
      have hlen := ih hat hnd.2
      have htpos : 0 < t.length :=
        List.length_pos.mpr (List.ne_nil_of_mem hat)
      rw [List.filter_cons, if_pos (decide_eq_true hba), List.length_cons,
        List.length_cons, hlen]
      omega

open Classical in
/-- Claim C7: for a candidate whose name is among the device's (distinct)
probed names, coprobe equals the number of OTHER probed names that have at
least one hit within the radius, divided by max(1, number of other names);
a single-name device always yields coprobe 0. -/
theorem coprobe_fraction (candidates : List Cand) (device_ssids : List String)
    (r_m lat lon : ℝ) (selfSsid : String)
    (hmem : selfSsid ∈ device_ssids) (hnd : device_ssids.Nodup) :
    coprobe candidates device_ssids r_m lat lon selfSsid =
      (((device_ssids.filter (fun s => s ≠ selfSsid)).countP (fun s =>
          decide (∃ c ∈ candidates, c.ssid = s ∧
            haversine_km lat lon c.lat c.lon * 1000 ≤ r_m)) : ℕ) : ℝ) /
        ((max 1 (device_ssids.filter (fun s => s ≠ selfSsid)).length : ℕ) : ℝ) ∧
    (device_ssids.length = 1 →
      coprobe candidates device_ssids r_m lat lon selfSsid = 0) := by
  constructor
  · unfold coprobe
    have hnum : (device_ssids.filter (fun s => s ≠ selfSsid)).countP (fun s =>
        decide (∃ c ∈ candidates, c.ssid = s ∧
          haversine_km lat lon c.lat c.lon * 1000 ≤ r_m)) =
        device_ssids.countP (fun s =>
          decide (s ≠ selfSsid) &&
          decide (∃ c ∈ bySsid candidates s,
            haversine_km lat lon c.lat c.lon * 1000 ≤ r_m)) := by
      rw [List.countP_filter]
      apply List.countP_congr
      intro s _
      have hiff : (∃ c ∈ candidates, c.ssid = s ∧
          haversine_km lat lon c.lat c.lon * 1000 ≤ r_m) ↔
          (∃ c ∈ bySsid candidates s,
            haversine_km lat lon c.lat c.lon * 1000 ≤ r_m) := by
        constructor
        · rintro ⟨cc, hcc, hcs, hcd⟩
          exact ⟨cc, List.mem_filter.mpr ⟨hcc, by simp [hcs]⟩, hcd⟩
        · rintro ⟨cc, hcc, hcd⟩
          have h2 := List.mem_filter.mp hcc
          exact ⟨cc, h2.1, by simpa using h2.2, hcd⟩
      rw [decide_eq_decide.mpr hiff, Bool.and_comm]
    have hden : device_ssids.length - 1 =
        (device_ssids.filter (fun s => s ≠ selfSsid)).length :=
      (length_filter_ne device_ssids selfSsid hmem hnd).symm
    rw [hnum, hden]
  · intro hlen
    obtain ⟨x, rfl⟩ : ∃ x, device_ssids = [x] := by
      cases device_ssids with
      | nil => cases hlen
      | cons y t =>
        cases t with
        | nil => exact ⟨y, rfl⟩
        | cons z t2 => simp at hlen
    have hx : selfSsid = x := List.mem_singleton.mp hmem
    rw [hx]
    exact coprobe_self_single candidates r_m lat lon x

theorem score_single_candidate_witness :
    score_candidates (ScoringCfg.mk (7/10) 10 300 1 1)
      [Cand.mk 0 0 "x" none] ["x"]
      (fun s => if s = "x" then some 1 else none) none =
      [{ lat := 0, lon := 0, ssid := "x", lastupdt := none
         score := (1 / Real.log (2 + 1)) ^ (1 : ℝ) * (1 - 7/10) }] :=
  (score_single_candidate (ScoringCfg.mk (7/10) 10 300 1 1)
    (Cand.mk 0 0 "x" none)
    (fun s => if s = "x" then some 1 else none) (by decide)).1

theorem coprobe_fraction_witness :
    coprobe [] ["a"] 300 0 0 "a" = 0 :=
  (coprobe_fraction [] ["a"] 300 0 0 "a" (by decide) (by decide)).2 (by decide)

/-- Claim C8 counterexample: a decoded message whose top level is a JSON
array contains an identifier that the deep search finds, yet the handler
raises (js.get on a non-dict) instead of forwarding it to the store. -/
theorem eventbus_nonobject_cex :
    deepFind (J.arr [J.obj [("kismet.device.base.macaddr", J.str "AA:BB")]])
        macKeys = some (J.str "AA:BB") ∧
    handle (J.arr [J.obj [("kismet.device.base.macaddr", J.str "AA:BB")]]) =
      Except.error () :=
  ⟨rfl, rfl⟩

theorem handle_obj (kvs : List (String × J)) :
    handle (J.obj kvs) =
      (if truthy (macOf (J.obj kvs)) = false then Except.ok none
       else if truthy (evtOf kvs) = true then
         match evtOf kvs with
         | J.str e =>
           if containsSub "PROBED_SSID" (strUpper e) = false &&
               (deepFind (J.obj kvs) ssidKeys).isNone then Except.ok none
           else Except.ok (some (mkCall (macOf (J.obj kvs))
             (deepFind (J.obj kvs) ssidKeys) (deepFind (J.obj kvs) tsKeys)))
         | _ => Except.error ()
       else Except.ok (some (mkCall (macOf (J.obj kvs))
         (deepFind (J.obj kvs) ssidKeys) (deepFind (J.obj kvs) tsKeys)))) :=
  rfl

theorem applyMsg_some (j : J) (st : Store) (now : Int) :
    applyMsg (some j) st now =
      match handle j with
      | Except.ok (some c) => record st c.mac (some c.ssid) c.ts now
      | _ => st :=
  rfl

/-- Claim C8 (amended): a frame that fails to decode is dropped silently
and leaves the store unchanged; a decoded object message with no (truthy)
identifier is discarded; a decoded object message whose event name is a
truthy string not containing PROBED_SSID and with no probed name found is
discarded; any other decoded object message with an identifier (and a
string-or-falsy event name) is forwarded to the store's record call.
A decoded non-object top level instead raises and is never forwarded. -/
theorem eventbus_message_handling :
    (∀ (st : Store) (now : Int), applyMsg none st now = st) ∧
    (∀ (kvs : List (String × J)) (st : Store) (now : Int),
      truthy (macOf (J.obj kvs)) = false →
      handle (J.obj kvs) = Except.ok none ∧
      applyMsg (some (J.obj kvs)) st now = st) ∧
    (∀ (kvs : List (String × J)) (e : String) (st : Store) (now : Int),
      evtOf kvs = J.str e → truthy (J.str e) = true →
      containsSub "PROBED_SSID" (strUpper e) = false →
      deepFind (J.obj kvs) ssidKeys = none →
      handle (J.obj kvs) = Except.ok none ∧
      applyMsg (some (J.obj kvs)) st now = st) ∧
    (∀ (kvs : List (String × J)) (e : String),
      evtOf kvs = J.str e →
      truthy (macOf (J.obj kvs)) = true →
      (truthy (J.str e) = true →
        containsSub "PROBED_SSID" (strUpper e) = true ∨
        (deepFind (J.obj kvs) ssidKeys).isSome = true) →
      ∃ c : Call, handle (J.obj kvs) = Except.ok (some c) ∧
        ∀ (st : Store) (now : Int),
          applyMsg (some (J.obj kvs)) st now =
            record st c.mac (some c.ssid) c.ts now) := by
  refine ⟨fun st now => rfl, ?_, ?_, ?_⟩
  · intro kvs st now h
    have hh : handle (J.obj kvs) = Except.ok none := by
      rw [handle_obj, if_pos h]
    refine ⟨hh, ?_⟩
    rw [applyMsg_some, hh]
  · intro kvs e st now hevt htr hcs hsn
    have hh : handle (J.obj kvs) = Except.ok none := by
      rw [handle_obj, hevt]
      by_cases hmac : truthy (macOf (J.obj kvs)) = false
      · rw [if_pos hmac]
      · rw [if_neg hmac, if_pos htr]
        exact if_pos (by simp [hcs, hsn])
    refine ⟨hh, ?_⟩
    rw [applyMsg_some, hh]
  · intro kvs e hevt hmac hcond
    have hmf : ¬ (truthy (macOf (J.obj kvs)) = false) := by
      rw [hmac]; simp
    have hh : handle (J.obj kvs) =
        Except.ok (some (mkCall (macOf (J.obj kvs))
          (deepFind (J.obj kvs) ssidKeys) (deepFind (J.obj kvs) tsKeys))) := by
      rw [handle_obj, hevt, if_neg hmf]
      by_cases htr : truthy (J.str e) = true
      · rw [if_pos htr]
        rcases hcond htr with hcs | hsome
        · exact if_neg (by simp [hcs])
        · have hnn : (deepFind (J.obj kvs) ssidKeys).isNone = false := by
            rw [Option.isNone_eq_false_iff]
            exact hsome
          exact if_neg (by simp [hnn])
      · rw [if_neg htr]
    exact ⟨_, hh, fun st now => by rw [applyMsg_some, hh]⟩

theorem eventbus_message_handling_witness :
    ∃ c : Call,
      handle (J.obj [("kismet.device.base.macaddr", J.str "AA")]) =
        Except.ok (some c) ∧
      ∀ (st : Store) (now : Int),
        applyMsg (some (J.obj [("kismet.device.base.macaddr", J.str "AA")]))
          st now = record st c.mac (some c.ssid) c.ts now :=
  eventbus_message_handling.2.2.2
    [("kismet.device.base.macaddr", J.str "AA")] "" rfl rfl
    (fun h => absurd h (by decide))

theorem score_candidates_fresh_copies_witness :
    (score_candidates (ScoringCfg.mk 0 0 0 0 0) [] [] (fun _ => none)
      none).Perm [] :=
  (score_candidates_fresh_copies (ScoringCfg.mk 0 0 0 0 0) [] []
    (fun _ => none) none).1

end Geointel
